import Mathlib

/-! # go-hiring-challenge: catalog and category handlers, repositories

A shallow embedding of the request handlers (`app/catalog/handler.go`,
`app/categories/handler.go`) and of the repositories
(`models/products_repository.go`, `models/categories_repository.go`).

Go strings are Lean strings; where the Go code walks a string byte by byte
(`strconv.Atoi`) the walk is over the UTF-8 encoding of the string.
Collaborators passed to a handler (the repository behind its interface, the
`decimal` library) are parameters of the embedded handler, and every call a
handler makes to its repository is recorded in the result, so that "the
repository is not invoked" is a statement about that record.
-/

namespace GoHiringChallenge

/-! ## Go strings -/

/-- UTF-8 encoding of one character, as the bytes a Go string holds for it. -/
def charBytes (c : Char) : List Nat :=
  let n := c.toNat
  if n < 0x80 then [n]
  else if n < 0x800 then [0xC0 + n / 64, 0x80 + n % 64]
  else if n < 0x10000 then [0xE0 + n / 4096, 0x80 + n / 64 % 64, 0x80 + n % 64]
  else [0xF0 + n / 262144, 0x80 + n / 4096 % 64, 0x80 + n / 64 % 64, 0x80 + n % 64]

/-- The bytes of a Go string: `[]byte(s)`. -/
def goBytes (s : String) : List Nat :=
  s.toList.flatMap charBytes

/-! ## strconv (Go standard library) -/

/-- The two error kinds of `strconv.NumError`: `ErrSyntax` and `ErrRange`. -/
inductive NumError where
  | ErrSyntax
  | ErrRange
  deriving DecidableEq, Repr

/-- Size of `int` in bits, `strconv.IntSize` on a 64-bit platform. -/
def intSize : Nat := 64

/-- Conversion of an integer to `int64`, keeping the low 64 bits. -/
def toInt64 (z : Int) : Int :=
  (z + 2 ^ 63) % 2 ^ 64 - 2 ^ 63

/-- The digit loop of the fast path of `strconv.Atoi`: `ch -= '0'` is byte
arithmetic, so a byte below `'0'` wraps above 9. The accumulator cannot
overflow: this path is taken only for fewer than 19 bytes. -/
def atoiFastLoop : List Nat → Int → Option Int
  | [], n => some n
  | ch :: rest, n =>
    let d := (ch + 256 - 48) % 256
    if d > 9 then none else atoiFastLoop rest (n * 10 + d)

/-- `lower(c)` of strconv: `c | ('x' - 'X')`; for a byte, setting bit 5. -/
def lower (c : Nat) : Nat :=
  if c / 32 % 2 = 0 then c + 32 else c

/-- The digit loop of `strconv.ParseUint(s, 10, 64)`; `n` is a `uint64`.
Returns the value and the error, as the Go function does: `(n, nil)`,
`(0, ErrSyntax)` or `(maxVal, ErrRange)`. The range error is raised at the
byte where the overflow happens, before later bytes are looked at. -/
def parseUintLoop : List Nat → Nat → Nat × Option NumError
  | [], n => (n, none)
  | c :: rest, n =>
    let maxVal := 2 ^ 64 - 1
    let cutoff := maxVal / 10 + 1
    let digit : Option Nat :=
      if 48 ≤ c ∧ c ≤ 57 then some (c - 48)
      else if 97 ≤ lower c ∧ lower c ≤ 122 then some (lower c - 97 + 10)
      else none
    match digit with
    | none => (0, some .ErrSyntax)
    | some d =>
      if d ≥ 10 then (0, some .ErrSyntax)
      else if n ≥ cutoff then (maxVal, some .ErrRange)
      else
        let n10 := n * 10 % 2 ^ 64
        let n1 := (n10 + d) % 2 ^ 64
        if n1 < n10 ∨ n1 > maxVal then (maxVal, some .ErrRange)
        else parseUintLoop rest n1

/-- `strconv.ParseUint(s, 10, 64)` on the bytes of `s`. -/
def ParseUint (s : List Nat) : Nat × Option NumError :=
  if s = [] then (0, some .ErrSyntax) else parseUintLoop s 0

/-- `strconv.ParseInt(s, 10, 0)` on the bytes of `s`. -/
def ParseInt (s : List Nat) : Int × Option NumError :=
  match s with
  | [] => (0, some .ErrSyntax)
  | c :: rest =>
    let neg := c = 45
    let body := if c = 43 ∨ c = 45 then rest else s
    let (un, err) := ParseUint body
    if err = some .ErrSyntax then (0, err)
    else
      let cutoff : Nat := 2 ^ (intSize - 1)
      if ¬ neg ∧ un ≥ cutoff then ((cutoff : Int) - 1, some .ErrRange)
      else if neg ∧ un > cutoff then (-(cutoff : Int), some .ErrRange)
      else
        let n := toInt64 un
        (if neg then toInt64 (-n) else n, none)

/-- `strconv.Atoi(s)`: the value and the error. A syntax error comes with the
value 0; a range error comes with the largest (or smallest) `int`. -/
def Atoi (s : String) : Int × Option NumError :=
  let b := goBytes s
  if 0 < b.length ∧ b.length < 19 then
    match b with
    | [] => (0, some .ErrSyntax)
    | c :: rest =>
      let body := if c = 45 ∨ c = 43 then rest else b
      if body.length < 1 then (0, some .ErrSyntax)
      else
        match atoiFastLoop body 0 with
        | none => (0, some .ErrSyntax)
        | some n => (if c = 45 then -n else n, none)
  else ParseInt b

/-- `url.Values`: the values of each key of the query string, in order. -/
abbrev Values := String → List String

/-- `Values.Get`: the first value of the key, or the empty string when the
key has no value. -/
def Values.Get (v : Values) (key : String) : String :=
  match v key with
  | [] => ""
  | x :: _ => x

/-! ## strings and unicode (Go standard library) -/

/-- `unicode.IsSpace`: the Latin-1 spaces `\t \n \v \f \r`, space, U+0085,
U+00A0, and beyond Latin-1 the characters of the White_Space table. -/
def IsSpace (r : Char) : Bool :=
  let n := r.toNat
  if n ≤ 0xFF then
    n = 0x09 ∨ n = 0x0A ∨ n = 0x0B ∨ n = 0x0C ∨ n = 0x0D ∨ n = 0x20 ∨ n = 0x85 ∨ n = 0xA0
  else
    n = 0x1680 ∨ (0x2000 ≤ n ∧ n ≤ 0x200A) ∨ n = 0x2028 ∨ n = 0x2029 ∨ n = 0x202F
      ∨ n = 0x205F ∨ n = 0x3000

/-- `strings.TrimSpace`: the string without its leading and trailing white
space, as `unicode.IsSpace` defines it. -/
def TrimSpace (s : String) : String :=
  String.mk ((s.toList.dropWhile IsSpace).reverse.dropWhile IsSpace).reverse

/-! ## Errors -/

/-- Go error values, as far as the code tells them apart: an error with a
message only (`errors.New`, `gorm.ErrRecordNotFound`, a driver error that is
not a PostgreSQL error), a `*pgconn.PgError`, and an error that wraps another
one (`fmt.Errorf` with one `%w`, as gorm and the driver build them; `Unwrap`
gives the inner error). A `PgError` has no `Unwrap` method, so it ends the
chain it is in. -/
inductive GoError where
  | plain (msg : String)
  | pgError (severity message code : String)
  | wrap (msg : String) (inner : GoError)
  deriving DecidableEq, Repr

/-- The `Error()` method: the message text. For a `PgError` it is
`Severity + ": " + Message + " (SQLSTATE " + Code + ")"`. -/
def GoError.Error : GoError → String
  | .plain msg => msg
  | .pgError severity message code => severity ++ ": " ++ message ++ " (SQLSTATE " ++ code ++ ")"
  | .wrap msg _ => msg

/-- The error `gorm.ErrRecordNotFound`, which `First` reports when no row matches. -/
def ErrRecordNotFound : GoError := .plain "record not found"

/-! ## decimal (shopspring) -/

/-- A `decimal.Decimal`: the number `value * 10 ^ exp`. -/
structure Decimal where
  value : Int
  exp : Int
  deriving DecidableEq, Repr

/-- `Decimal.IsZero`: the sign of the value is zero. -/
def Decimal.IsZero (d : Decimal) : Bool :=
  d.value = 0

/-- Exact comparison `a < b` of two decimals, both brought to the smaller
exponent: the comparison a numeric column makes in `price < ?`. -/
def Decimal.lt (a b : Decimal) : Bool :=
  let m := min a.exp b.exp
  a.value * 10 ^ (a.exp - m).toNat < b.value * 10 ^ (b.exp - m).toNat

/-- The two functions of the decimal library the handlers call:
`decimal.NewFromString`, which fails on a string that is not a decimal number,
and `Decimal.InexactFloat64`, the conversion to the `float64` (type `F`) that
a response carries. -/
structure DecimalLib (F : Type) where
  NewFromString : String → Except GoError Decimal
  InexactFloat64 : Decimal → F

/-! ## HTTP responses -/

/-- Modelled from the spec: the helpers `api.OKResponse` and `api.ErrorResponse`
(package `app/api`). A success returns the payload as JSON with HTTP 200; an
error returns an envelope with an HTTP status and a message. -/
inductive Response (α : Type) where
  | OK (body : α)
  | Error (status : Nat) (message : String)
  deriving DecidableEq, Repr

/-- The HTTP status of a response. -/
def Response.status {α : Type} : Response α → Nat
  | .OK _ => 200
  | .Error status _ => status

/-- What a handler did: the response it wrote and the calls it made to its
repository, in order. -/
structure Outcome (α κ : Type) where
  response : Response α
  calls : List κ
  deriving DecidableEq, Repr

/-! ## models -/

namespace models

/-- The `Category` of `models/categories.go`: `ID` (primary key), `Code`
(unique, not null), `Name`. Its `Products` association is never loaded or
read by the code embedded here and is left out. -/
structure Category where
  ID : Nat
  Code : String
  Name : String
  deriving DecidableEq, Repr

/-- Modelled from the spec: the `Variant` model (its declaration is not among
the sources): name, SKU and an optional price, owned by one product. -/
structure Variant where
  ID : Nat
  ProductID : Nat
  Name : String
  SKU : String
  Price : Decimal
  deriving DecidableEq, Repr

/-- Modelled from the spec: the `Product` model (its declaration is not among
the sources): code, price, the key of its category, and the two associations
`Category` and `Variants` that a `Preload` fills. -/
structure Product where
  ID : Nat
  Code : String
  Price : Decimal
  CategoryID : Nat
  Category : Category
  Variants : List Variant
  deriving DecidableEq, Repr

end models

/-! ## models: the store and the queries on it -/

namespace models

/-- A row of the table `products`. -/
structure ProductRow where
  ID : Nat
  Code : String
  Price : Decimal
  CategoryID : Nat
  deriving DecidableEq, Repr

/-- The database: the tables `categories`, `products` and `variants`. In
`categories` and in `products` the column `id` is the primary key. -/
structure Store where
  categories : List Category
  products : List ProductRow
  variants : List Variant
  deriving Repr

/-- The primary key of `categories`: no two rows share an `id`. -/
def Store.categoryKey (st : Store) : Prop :=
  (st.categories.map (·.ID)).Nodup

instance (st : Store) : Decidable st.categoryKey :=
  inferInstanceAs (Decidable (List.Nodup _))

/-- The conditions `List` puts in a `Where`: `categories.code = ?` and
`price < ?`. -/
inductive Cond where
  | categoryCodeEq (code : String)
  | priceLt (d : Decimal)
  deriving DecidableEq, Repr

/-- A query on `products` under construction (`*gorm.DB` after
`Model(&Product{})`): whether `categories` is joined, the conditions, the
order, the associations to preload, and the offset and limit clauses. -/
structure Query where
  joinCategories : Bool
  conds : List Cond
  orderByID : Bool
  preloads : List String
  offset : Option Int
  limit : Option Int
  deriving DecidableEq, Repr

/-- The query `db.Model(&Product{})`: all rows of `products`. -/
def Query.Model : Query :=
  { joinCategories := false, conds := [], orderByID := false, preloads := [],
    offset := none, limit := none }

/-- `Joins("JOIN categories ON categories.id = products.category_id")`. -/
def Query.JoinsCategories (q : Query) : Query :=
  { q with joinCategories := true }

/-- `Where(cond)`: one more condition, joined to the others by AND. -/
def Query.Where (q : Query) (c : Cond) : Query :=
  { q with conds := q.conds ++ [c] }

/-- `Order("products.id ASC")`. -/
def Query.OrderByID (q : Query) : Query :=
  { q with orderByID := true }

/-- `Preload(name)`; preloading an association twice is preloading it once. -/
def Query.Preload (q : Query) (name : String) : Query :=
  if name ∈ q.preloads then q else { q with preloads := q.preloads ++ [name] }

/-- `Offset(n)`: sets the offset clause. -/
def Query.Offset (q : Query) (n : Int) : Query :=
  { q with offset := some n }

/-- `Limit(n)`: sets the limit clause. -/
def Query.Limit (q : Query) (n : Int) : Query :=
  { q with limit := some n }

/-- A row of the query: a product row and, when `categories` is joined, the
category row it is paired with. -/
abbrev QRow := ProductRow × Option Category

/-- The rows the `FROM` part of the query ranges over: the products, or with
the join every pair of a product and a category with
`categories.id = products.category_id`. -/
def Query.source (q : Query) (st : Store) : List QRow :=
  if q.joinCategories then
    st.products.flatMap fun p =>
      (st.categories.filter fun c => c.ID = p.CategoryID).map fun c => (p, some c)
  else st.products.map fun p => (p, none)

/-- Whether a row satisfies a condition. -/
def Cond.holds (c : Cond) (r : QRow) : Bool :=
  match c with
  | .categoryCodeEq code =>
    match r.2 with
    | some cat => cat.Code = code
    | none => false
  | .priceLt d => r.1.Price.lt d

/-- The rows of the query that satisfy all its conditions. -/
def Query.rows (q : Query) (st : Store) : List QRow :=
  (q.source st).filter fun r => q.conds.all fun c => c.holds r

/-- `Count(&total)` on a query that has conditions only, as `base` in `List`:
the number of rows, or the error of the statement. A statement on the tables
of a store is answered from the tables and reports no error. -/
def Query.Count (q : Query) (st : Store) : Except GoError Int :=
  .ok ((q.rows st).length : Int)

/-- The `OFFSET` clause: written when the offset is positive. -/
def applyOffset {α : Type} (offset : Option Int) (l : List α) : List α :=
  match offset with
  | some n => if n > 0 then l.drop n.toNat else l
  | none => l

/-- The `LIMIT` clause: written when the limit is set and not negative; a
negative limit cancels the clause. -/
def applyLimit {α : Type} (limit : Option Int) (l : List α) : List α :=
  match limit with
  | some n => if n ≥ 0 then l.take n.toNat else l
  | none => l

/-- The product a row is scanned into, with the associations the query
preloads: the category whose `id` is the row's `category_id` (the zero
category when there is none) and the variants whose `product_id` is the
row's `id`. -/
def Query.hydrate (q : Query) (st : Store) (p : ProductRow) : Product :=
  { ID := p.ID
    Code := p.Code
    Price := p.Price
    CategoryID := p.CategoryID
    Category :=
      if "Category" ∈ q.preloads then
        (st.categories.find? fun c => c.ID = p.CategoryID).getD { ID := 0, Code := "", Name := "" }
      else { ID := 0, Code := "", Name := "" }
    Variants :=
      if "Variants" ∈ q.preloads then st.variants.filter fun v => v.ProductID = p.ID else [] }

/-- `Find(&products)`: the rows of the query, in the order asked for, after
the offset and limit clauses, each scanned into a product; or the error of
the statement, of which a store reports none. -/
def Query.Find (q : Query) (st : Store) : Except GoError (List Product) :=
  let rows := q.rows st
  let rows := if q.orderByID then rows.insertionSort (fun a b => a.1.ID ≤ b.1.ID) else rows
  .ok (((applyLimit q.limit (applyOffset q.offset rows)).map Prod.fst).map (q.hydrate st))

/-- The closure `applyFilters` of `ProductsRepository.List`. -/
def applyFilters (category : String) (priceLessThan : Option Decimal) (db : Query) : Query :=
  let db := if category ≠ "" then (db.JoinsCategories).Where (.categoryCodeEq category) else db
  match priceLessThan with
  | some d => db.Where (.priceLt d)
  | none => db

/-- The method `ProductsRepository.List` on a store. -/
def ProductsRepository.List (st : Store) (offset limit : Int) (category : String)
    (priceLessThan : Option Decimal) : Except GoError (List Product × Int) :=
  let base := applyFilters category priceLessThan Query.Model
  match base.Count st with
  | .error err => .error err
  | .ok total =>
    let query := ((((applyFilters category priceLessThan Query.Model).OrderByID.Preload
      "Variants").Preload "Category").Offset offset).Limit limit
    match ((((query.Preload "Variants").Preload "Category").Offset offset).Limit limit).Find st with
    | .error err => .error err
    | .ok products => .ok (products, total)

/-- The gorm handle as `CategoriesRepository.Create` uses it: `Create(c)` is
handed a pointer to the category and returns the category as the insert left
it (gorm fills in the primary key) and the error of the insert, if any. -/
structure DB where
  Create : Category → Category × Option GoError

/-- `errors.As(err, &pgErr)` for a `*pgconn.PgError` target: the first error
of that type in the chain of `err`, found by unwrapping. -/
def asPgError : GoError → Option GoError
  | .plain _ => none
  | .pgError severity message code => some (.pgError severity message code)
  | .wrap _ inner => asPgError inner

/-- The function `isUniqueConstraintError`. -/
def isUniqueConstraintError (err : GoError) : Bool :=
  match asPgError err with
  | some (.pgError _ _ code) => code = "23505"
  | _ => false

/-- The method `CategoriesRepository.Create`: the error it returns, with the
category as the insert left it. -/
def CategoriesRepository.Create (db : DB) (c : Category) : Category × Option GoError :=
  match db.Create c with
  | (c1, some err) =>
    if isUniqueConstraintError err then (c1, some (.plain "category code already exists"))
    else (c1, some err)
  | (c1, none) => (c1, none)

end models

/-! ## app/catalog -/

namespace catalog

/-- The arguments of one call of `ProductRepository.List`. -/
structure ListCall where
  offset : Int
  limit : Int
  category : String
  priceLessThan : Option Decimal
  deriving DecidableEq, Repr

/-- One call the catalog handler makes to its repository. -/
inductive Call where
  | List (args : ListCall)
  | GetByCode (code : String)
  deriving DecidableEq, Repr

/-- The interface `ProductRepository`: what `List` and `GetByCode` return. -/
structure ProductRepository where
  List : Int → Int → String → Option Decimal → Except GoError (List models.Product × Int)
  GetByCode : String → Except GoError models.Product

/-- The struct `categoryResponse` of the catalog package. -/
structure categoryResponse where
  Code : String
  Name : String
  deriving DecidableEq, Repr

/-- The struct `variantResponse`. -/
structure variantResponse (F : Type) where
  Name : String
  SKU : String
  Price : F
  deriving DecidableEq, Repr

/-- The struct `productResponse`. -/
structure productResponse (F : Type) where
  Code : String
  Price : F
  Category : categoryResponse
  Variants : List (variantResponse F)
  deriving DecidableEq, Repr

/-- The anonymous struct `HandleList` answers with. -/
structure listResponse (F : Type) where
  Products : List (productResponse F)
  Total : Int
  deriving DecidableEq, Repr

/-- Whether the JSON of a `productResponse` has the key `variants`: the field
is tagged `json:"variants,omitempty"`, and `encoding/json` leaves such a field
out when the slice has no element. -/
def productResponse.hasVariantsKey {F : Type} (pr : productResponse F) : Bool :=
  !pr.Variants.isEmpty

/-- The function `mapProduct`: `Variants` is left at its zero value. -/
def mapProduct {F : Type} (lib : DecimalLib F) (p : models.Product) : productResponse F :=
  { Code := p.Code
    Price := lib.InexactFloat64 p.Price
    Category := { Code := p.Category.Code, Name := p.Category.Name }
    Variants := [] }

/-- The offset `HandleList` computes from the `offset` parameter: the error of
`Atoi` is dropped and the value it returned is used. -/
def parseOffset (raw : String) : Int :=
  let offset := (Atoi raw).1
  if offset < 0 then 0 else offset

/-- The limit `HandleList` computes from the `limit` parameter. -/
def parseLimit (raw : String) : Int :=
  let limit : Int := 10
  let limit := match Atoi raw with
    | (l, none) => l
    | (_, some _) => limit
  let limit := if limit < 1 then 1 else limit
  if limit > 100 then 100 else limit

/-- The price filter `HandleList` computes from the `priceLessThan` parameter:
an error when the parameter is not empty and does not parse, otherwise the
filter, which is absent (`nil`) for the empty parameter. -/
def parsePriceFilter {F : Type} (lib : DecimalLib F) (v : String) : Except GoError (Option Decimal) :=
  if v ≠ "" then
    match lib.NewFromString v with
    | .error err => .error err
    | .ok p => .ok (some p)
  else .ok none

/-- The method `CatalogHandler.HandleList`, on the query of the request. -/
def HandleList {F : Type} (lib : DecimalLib F) (repo : ProductRepository) (q : Values) :
    Outcome (listResponse F) Call :=
  let offset := parseOffset (q.Get "offset")
  let limit := parseLimit (q.Get "limit")
  let category := q.Get "category"
  match parsePriceFilter lib (q.Get "priceLessThan") with
  | .error _ => { response := .Error 400 "invalid priceLessThan", calls := [] }
  | .ok priceFilter =>
    let call := Call.List ⟨offset, limit, category, priceFilter⟩
    match repo.List offset limit category priceFilter with
    | .error err => { response := .Error 500 err.Error, calls := [call] }
    | .ok (products, total) =>
      { response := .OK { Products := products.map (mapProduct lib), Total := total }
        calls := [call] }

/-- The method `CatalogHandler.HandleGet`, on the `code` segment of the path. -/
def HandleGet {F : Type} (lib : DecimalLib F) (repo : ProductRepository) (code : String) :
    Outcome (productResponse F) Call :=
  match repo.GetByCode code with
  | .error _ => { response := .Error 404 "product not found", calls := [.GetByCode code] }
  | .ok p =>
    let pr := mapProduct lib p
    let variants := p.Variants.map fun v =>
      let price := if v.Price.IsZero then p.Price else v.Price
      ({ Name := v.Name, SKU := v.SKU, Price := lib.InexactFloat64 price } : variantResponse F)
    { response := .OK { pr with Variants := variants }, calls := [.GetByCode code] }

end catalog

/-! ## app/categories -/

namespace categories

/-- The struct `categoryResponse` of the categories package, which is also
the request body of `HandleCreate`. -/
structure categoryResponse where
  Code : String
  Name : String
  deriving DecidableEq, Repr

/-- One call the categories handler makes to its repository. -/
inductive Call where
  | List
  | Create (c : models.Category)
  deriving DecidableEq, Repr

/-- The interface `Repository`. `Create` is handed a pointer to the category:
it returns its error together with the category as it left it. -/
structure Repository where
  List : Except GoError (List models.Category)
  Create : models.Category → models.Category × Option GoError

/-- The method `Handler.HandleList`. -/
def HandleList (repo : Repository) : Outcome (List categoryResponse) Call :=
  match repo.List with
  | .error err => { response := .Error 500 err.Error, calls := [.List] }
  | .ok categories =>
    { response := .OK (categories.map fun c => { Code := c.Code, Name := c.Name })
      calls := [.List] }

/-- The method `Handler.HandleCreate`, on the outcome of decoding the request
body: `none` when the body is not JSON for `{code, name}`. -/
def HandleCreate (repo : Repository) (body : Option categoryResponse) :
    Outcome categoryResponse Call :=
  match body with
  | none => { response := .Error 400 "invalid body", calls := [] }
  | some req =>
    if TrimSpace req.Code = "" then
      { response := .Error 400 "code is required", calls := [] }
    else if TrimSpace req.Name = "" then
      { response := .Error 400 "name is required", calls := [] }
    else
      let cat : models.Category := { ID := 0, Code := req.Code, Name := req.Name }
      match repo.Create cat with
      | (_, some err) => { response := .Error 500 err.Error, calls := [.Create cat] }
      | (stored, none) =>
        { response := .OK { Code := stored.Code, Name := stored.Name }, calls := [.Create cat] }

end categories

/-! ## Notions the statements use -/

/-- A string that is empty or holds white space only. -/
def Blank (s : String) : Prop :=
  ∀ c ∈ s.toList, IsSpace c = true

instance (s : String) : Decidable (Blank s) :=
  inferInstanceAs (Decidable (∀ c ∈ s.toList, IsSpace c = true))

/-- The error and the errors it wraps, outermost first. -/
def GoError.chain : GoError → List GoError
  | .plain msg => [.plain msg]
  | .pgError severity message code => [.pgError severity message code]
  | .wrap msg inner => .wrap msg inner :: inner.chain

/-- A uniqueness violation: the error, or an error it wraps, is a PostgreSQL
error with code 23505. -/
def IsUniqueViolation (e : GoError) : Prop :=
  ∃ e1 ∈ e.chain, ∃ severity message, e1 = .pgError severity message "23505"

/-- The category of a product row: the row of `categories` whose `id` is
the product's `category_id`, if there is one. -/
def models.Store.categoryOf (st : models.Store) (p : models.ProductRow) : Option models.Category :=
  st.categories.find? fun c => c.ID = p.CategoryID

/-- Whether a product matches the filters: its category's code equals the
category filter when that is not empty, and its price is strictly less than
the price filter when that is present. -/
def matchesFilters (st : models.Store) (category : String) (priceLessThan : Option Decimal)
    (p : models.ProductRow) : Bool :=
  (category = "" || (st.categoryOf p).any fun c => c.Code = category) &&
    (match priceLessThan with
      | none => true
      | some d => p.Price.lt d)

/-- The page as the spec words it: the products that match the filters, in
ascending order of product id, without the first `offset` of them, and at
most `limit` of the rest. -/
def specPage (st : models.Store) (offset limit : Int) (category : String)
    (priceLessThan : Option Decimal) : List models.ProductRow :=
  (((st.products.filter (matchesFilters st category priceLessThan)).insertionSort
    fun a b => a.ID ≤ b.ID).drop offset.toNat).take limit.toNat

/-- The products that match the filters, in ascending order of product id,
without the first `offset` of them: what is left when no limit applies. -/
def specRest (st : models.Store) (offset : Int) (category : String)
    (priceLessThan : Option Decimal) : List models.ProductRow :=
  ((st.products.filter (matchesFilters st category priceLessThan)).insertionSort
    fun a b => a.ID ≤ b.ID).drop offset.toNat

/-- A product row as a product with its category and its variants loaded. -/
def models.Store.loaded (st : models.Store) (p : models.ProductRow) : models.Product :=
  { ID := p.ID
    Code := p.Code
    Price := p.Price
    CategoryID := p.CategoryID
    Category := (st.categoryOf p).getD { ID := 0, Code := "", Name := "" }
    Variants := st.variants.filter fun v => v.ProductID = p.ID }

/-- The codes of the products a call of `List` returned, and the total. -/
def codesAndTotal (r : Except GoError (List models.Product × Int)) : Option (List String × Int) :=
  match r with
  | .ok (products, total) => some (products.map (·.Code), total)
  | .error _ => none

/-! ## Fixtures -/

/-- The seed of `TestProductsRepository_List_And_GetByCode`: categories ELEC
and BOOK, products P-001 (199.99, ELEC), P-002 (49.50, ELEC) and P-003 (9.99,
BOOK), and three variants without a price. -/
def seed : models.Store :=
  { categories := [⟨1, "ELEC", "Electronics"⟩, ⟨2, "BOOK", "Books"⟩]
    products := [⟨1, "P-001", ⟨19999, -2⟩, 1⟩, ⟨2, "P-002", ⟨495, -1⟩, 1⟩,
      ⟨3, "P-003", ⟨999, -2⟩, 2⟩]
    variants := [⟨1, 1, "Black", "SKU-001-B", ⟨0, 0⟩⟩, ⟨2, 1, "White", "SKU-001-W", ⟨0, 0⟩⟩,
      ⟨3, 3, "Paperback", "SKU-003-P", ⟨0, 0⟩⟩] }

/-- A decimal library for concrete runs: `NewFromString` knows the string
`"20"` and rejects any other, and a float is stood for by the decimal it
comes from. -/
def fixtureLib : DecimalLib Decimal :=
  { NewFromString := fun s =>
      if s = "20" then .ok ⟨20, 0⟩ else .error (.plain ("can't convert " ++ s ++ " to decimal"))
    InexactFloat64 := fun d => d }

/-- The product of `TestHandleGet`: one variant, whose price is zero. -/
def prod001 : models.Product :=
  { ID := 1, Code := "PROD001", Price := ⟨10, 0⟩, CategoryID := 1,
    Category := { ID := 1, Code := "CLOTHING", Name := "Clothing" },
    Variants := [{ ID := 1, ProductID := 1, Name := "Variant A", SKU := "SKU001", Price := ⟨0, 0⟩ }] }

/-- The stub repository of `TestHandleGet`. -/
def stubGetRepo : catalog.ProductRepository :=
  { List := fun _ _ _ _ => .ok ([], 0)
    GetByCode := fun _ => .ok prod001 }

/-- A repository whose `List` returns the product of `TestHandleGet`, which
has a variant, with total 1. -/
def stubListRepo : catalog.ProductRepository :=
  { List := fun _ _ _ _ => .ok ([prod001], 1)
    GetByCode := fun _ => .error ErrRecordNotFound }

/-- The query string with no parameter, as in `TestHandleList`. -/
def emptyQuery : Values :=
  fun _ => []

/-- A product repository whose database cannot be reached: both methods
fail with an error that is not `gorm.ErrRecordNotFound`. -/
def downRepo : catalog.ProductRepository :=
  { List := fun _ _ _ _ => .error (.plain "dial tcp 127.0.0.1:5432: connect: connection refused")
    GetByCode := fun _ => .error (.plain "dial tcp 127.0.0.1:5432: connect: connection refused") }

/-- A category repository whose insert succeeds and assigns the key 7. -/
def okCategories : categories.Repository :=
  { List := .ok []
    Create := models.CategoriesRepository.Create { Create := fun c => ({ c with ID := 7 }, none) } }

/-- A category repository whose `Create` succeeds and rewrites the code and
the name of the category it is handed, through the pointer it receives. -/
def rewritingRepo : categories.Repository :=
  { List := .ok []
    Create := fun c => ({ c with Code := "MUT", Name := "Mutated" }, none) }

/-- The query string `offset=99999999999999999999`. -/
def bigOffsetQuery : Values :=
  fun key => if key = "offset" then ["99999999999999999999"] else []

/-! ## Theorems: the catalog handler -/

theorem parseLimit_bounds (raw : String) :
    1 ≤ catalog.parseLimit raw ∧ catalog.parseLimit raw ≤ 100 := by
  unfold catalog.parseLimit
  rcases Atoi raw with ⟨l, _ | e⟩ <;> dsimp only <;> split_ifs <;> omega

theorem parseOffset_nonneg (raw : String) : 0 ≤ catalog.parseOffset raw := by
  unfold catalog.parseOffset
  dsimp only
  split_ifs <;> omega

theorem parseUintLoop_syntax (l : List Nat) (n : Nat)
    (h : (parseUintLoop l n).2 = some .ErrSyntax) : (parseUintLoop l n).1 = 0 := by
  induction l generalizing n with
  | nil => simp [parseUintLoop] at h
  | cons c rest ih =>
    unfold parseUintLoop at h ⊢
    dsimp only at h ⊢
    generalize (if 48 ≤ c ∧ c ≤ 57 then some (c - 48)
      else if 97 ≤ lower c ∧ lower c ≤ 122 then some (lower c - 97 + 10) else none) = dg at h ⊢
    cases dg with
    | none => rfl
    | some d =>
      dsimp only at h ⊢
      split_ifs at h ⊢ <;> first | rfl | exact ih _ h | (simp at h)

theorem ParseInt_syntax (b : List Nat) (h : (ParseInt b).2 = some .ErrSyntax) :
    (ParseInt b).1 = 0 := by
  unfold ParseInt at h ⊢
  cases b with
  | nil => rfl
  | cons c rest =>
    dsimp only at h ⊢
    split_ifs at h ⊢ <;> first | rfl | (simp at h)

theorem Atoi_syntax_value (s : String) (h : (Atoi s).2 = some .ErrSyntax) : (Atoi s).1 = 0 := by
  unfold Atoi at h ⊢
  dsimp only at h ⊢
  generalize goBytes s = b at h ⊢
  split_ifs at h ⊢ with h1
  · cases b with
    | nil => rfl
    | cons c rest =>
      dsimp only at h ⊢
      generalize (if c = 45 ∨ c = 43 then rest else c :: rest) = body at h ⊢
      by_cases h2 : body.length < 1
      · rw [if_pos h2]
      · rw [if_neg h2] at h ⊢
        generalize atoiFastLoop body 0 = r at h ⊢
        cases r with
        | none => rfl
        | some n => simp at h
  · exact ParseInt_syntax _ h

/-- The offset `HandleList` passes on: 0 for a parameter `Atoi` finds a
syntax error in, 0 for a negative value, the value itself when `Atoi`
accepts the parameter and it is not negative, and never a negative number.
The value `Atoi` returns with a range error is passed on like any other. -/
theorem parseOffset_cases (raw : String) :
    ((Atoi raw).2 = some .ErrSyntax → catalog.parseOffset raw = 0) ∧
    ((Atoi raw).1 < 0 → catalog.parseOffset raw = 0) ∧
    (0 ≤ (Atoi raw).1 → catalog.parseOffset raw = (Atoi raw).1) ∧
    0 ≤ catalog.parseOffset raw := by
  refine ⟨fun h => ?_, fun h => ?_, fun h => ?_, parseOffset_nonneg raw⟩
  · unfold catalog.parseOffset
    dsimp only
    rw [Atoi_syntax_value raw h]
    rfl
  · unfold catalog.parseOffset
    dsimp only
    rw [if_pos h]
  · unfold catalog.parseOffset
    dsimp only
    rw [if_neg (not_lt.mpr h)]

theorem HandleList_calls {F : Type} (lib : DecimalLib F) (repo : catalog.ProductRepository)
    (q : Values) (pf : Option Decimal)
    (h : catalog.parsePriceFilter lib (q.Get "priceLessThan") = .ok pf) :
    (catalog.HandleList lib repo q).calls =
      [.List ⟨catalog.parseOffset (q.Get "offset"), catalog.parseLimit (q.Get "limit"),
        q.Get "category", pf⟩] := by
  unfold catalog.HandleList
  rw [h]
  dsimp only
  split <;> rfl

theorem HandleList_calls_of_error {F : Type} (lib : DecimalLib F)
    (repo : catalog.ProductRepository) (q : Values) (e : GoError)
    (h : catalog.parsePriceFilter lib (q.Get "priceLessThan") = .error e) :
    catalog.HandleList lib repo q = ⟨.Error 400 "invalid priceLessThan", []⟩ := by
  unfold catalog.HandleList
  rw [h]

theorem HandleList_calls_cases {F : Type} (lib : DecimalLib F)
    (repo : catalog.ProductRepository) (q : Values) :
    (catalog.HandleList lib repo q).calls = [] ∨
      ∃ pf, (catalog.HandleList lib repo q).calls =
        [.List ⟨catalog.parseOffset (q.Get "offset"), catalog.parseLimit (q.Get "limit"),
          q.Get "category", pf⟩] := by
  cases h : catalog.parsePriceFilter lib (q.Get "priceLessThan") with
  | error e => left; rw [HandleList_calls_of_error lib repo q e h]
  | ok pf => right; exact ⟨pf, HandleList_calls lib repo q pf h⟩

/-- C1: the limit `HandleList` passes to the repository's `List` is 10 when
the `limit` parameter is missing or `strconv.Atoi` reports an error for it,
and otherwise the parsed integer with values below 1 raised to 1 and values
above 100 lowered to 100; in every case it lies in [1, 100]. The repository
is called (once) whenever the price filter is acceptable. -/
theorem HandleList_limit {F : Type} (lib : DecimalLib F) (repo : catalog.ProductRepository)
    (q : Values) :
    (∀ args, catalog.Call.List args ∈ (catalog.HandleList lib repo q).calls →
      (q "limit" = [] → args.limit = 10) ∧
      ((Atoi (q.Get "limit")).2 ≠ none → args.limit = 10) ∧
      (∀ l, Atoi (q.Get "limit") = (l, none) →
        args.limit = if l < 1 then 1 else if l > 100 then 100 else l) ∧
      1 ≤ args.limit ∧ args.limit ≤ 100) ∧
    (∀ pf, catalog.parsePriceFilter lib (q.Get "priceLessThan") = .ok pf →
      ∃ args, (catalog.HandleList lib repo q).calls = [.List args]) := by
  refine ⟨?_, fun pf h => ⟨_, HandleList_calls lib repo q pf h⟩⟩
  intro args hmem
  have hlim : args.limit = catalog.parseLimit (q.Get "limit") := by
    rcases HandleList_calls_cases lib repo q with h | ⟨pf, h⟩
    · rw [h] at hmem; cases hmem
    · rw [h] at hmem
      simp only [List.mem_singleton, catalog.Call.List.injEq] at hmem
      rw [hmem]
  have herr : (Atoi (q.Get "limit")).2 ≠ none → catalog.parseLimit (q.Get "limit") = 10 := by
    intro hne
    unfold catalog.parseLimit
    rcases hA : Atoi (q.Get "limit") with ⟨l, _ | e⟩
    · rw [hA] at hne; exact absurd rfl hne
    · rfl
  refine ⟨?_, ?_, ?_, ?_⟩
  · intro hmiss
    rw [hlim]
    apply herr
    have : q.Get "limit" = "" := by unfold Values.Get; rw [hmiss]
    rw [this]
    decide
  · intro hne
    rw [hlim, herr hne]
  · intro l hl
    rw [hlim]
    unfold catalog.parseLimit
    rw [hl]
    dsimp only
    split_ifs <;> first | rfl | omega
  · rw [hlim]
    exact parseLimit_bounds _

/-- C2 (the code at the failing input): for `offset=99999999999999999999`,
`strconv.Atoi` reports a range error and returns the largest `int`;
`HandleList` drops the error and passes 9223372036854775807, not 0, as the
offset of the repository's `List`, whatever the repository is. -/
theorem HandleList_offset_out_of_range {F : Type} (lib : DecimalLib F)
    (repo : catalog.ProductRepository) :
    Atoi "99999999999999999999" = (9223372036854775807, some .ErrRange) ∧
    (catalog.HandleList lib repo bigOffsetQuery).calls =
      [.List ⟨9223372036854775807, 10, "", none⟩] := by
  refine ⟨by decide, ?_⟩
  have hp : catalog.parsePriceFilter lib (bigOffsetQuery.Get "priceLessThan") = .ok none := rfl
  rw [HandleList_calls lib repo bigOffsetQuery none hp]
  have h1 : catalog.parseOffset (bigOffsetQuery.Get "offset") = 9223372036854775807 := by decide
  have h2 : catalog.parseLimit (bigOffsetQuery.Get "limit") = 10 := by decide
  have h3 : bigOffsetQuery.Get "category" = "" := by decide
  rw [h1, h2, h3]

/-- C3: when `priceLessThan` is not empty and `decimal.NewFromString` rejects
it, the response is HTTP 400 and the repository is not called, whatever the
other parameters are; when the parameter is absent (or empty) the repository's
`List` is called with no price filter; when it is not empty and parses, `List`
is called with exactly the parsed decimal. -/
theorem HandleList_priceLessThan {F : Type} (lib : DecimalLib F)
    (repo : catalog.ProductRepository) (q : Values) :
    (∀ e, q.Get "priceLessThan" ≠ "" → lib.NewFromString (q.Get "priceLessThan") = .error e →
      (catalog.HandleList lib repo q).response = .Error 400 "invalid priceLessThan" ∧
      (catalog.HandleList lib repo q).response.status = 400 ∧
      (catalog.HandleList lib repo q).calls = []) ∧
    ((q "priceLessThan" = [] ∨ q.Get "priceLessThan" = "") →
      ∃ args, (catalog.HandleList lib repo q).calls = [.List args] ∧
        args.priceLessThan = none) ∧
    (∀ d, q.Get "priceLessThan" ≠ "" → lib.NewFromString (q.Get "priceLessThan") = .ok d →
      ∃ args, (catalog.HandleList lib repo q).calls = [.List args] ∧
        args.priceLessThan = some d) := by
  refine ⟨?_, ?_, ?_⟩
  · intro e hne herr
    have h : catalog.parsePriceFilter lib (q.Get "priceLessThan") = .error e := by
      unfold catalog.parsePriceFilter
      rw [if_pos hne, herr]
    rw [HandleList_calls_of_error lib repo q e h]
    exact ⟨rfl, rfl, rfl⟩
  · intro habs
    have hempty : q.Get "priceLessThan" = "" := by
      rcases habs with h | h
      · unfold Values.Get; rw [h]
      · exact h
    have h : catalog.parsePriceFilter lib (q.Get "priceLessThan") = .ok none := by
      unfold catalog.parsePriceFilter
      rw [if_neg (not_not.mpr hempty)]
    exact ⟨_, HandleList_calls lib repo q none h, rfl⟩
  · intro d hne hok
    have h : catalog.parsePriceFilter lib (q.Get "priceLessThan") = .ok (some d) := by
      unfold catalog.parsePriceFilter
      rw [if_pos hne, hok]
    exact ⟨_, HandleList_calls lib repo q (some d) h, rfl⟩

/-- C4: for a product the repository returns, the response of `HandleGet`
lists one variant entry per variant of the product, in the same order; the
entry at each position carries the name and SKU of the variant at that
position, and its price is the product's own price (the price the response
gives for the product) when the variant's stored price is zero, and the
variant's own price when that is not zero. -/
theorem HandleGet_variants {F : Type} (lib : DecimalLib F) (repo : catalog.ProductRepository)
    (code : String) (p : models.Product) (h : repo.GetByCode code = .ok p) :
    ∃ pr, (catalog.HandleGet lib repo code).response = .OK pr ∧
      pr.Price = lib.InexactFloat64 p.Price ∧
      pr.Variants.length = p.Variants.length ∧
      ∀ (i : Nat) (v : models.Variant), p.Variants[i]? = some v →
        ∃ w : catalog.variantResponse F, pr.Variants[i]? = some w ∧ w.Name = v.Name ∧ w.SKU = v.SKU ∧
          (v.Price.IsZero = true → w.Price = lib.InexactFloat64 p.Price) ∧
          (v.Price.IsZero = false → w.Price = lib.InexactFloat64 v.Price) := by
  unfold catalog.HandleGet
  rw [h]
  refine ⟨_, rfl, rfl, ?_, ?_⟩
  · simp
  · intro i v hv
    refine ⟨{ Name := v.Name, SKU := v.SKU,
              Price := lib.InexactFloat64 (if v.Price.IsZero then p.Price else v.Price) },
      ?_, rfl, rfl, ?_, ?_⟩
    · simp only [List.getElem?_map, hv, Option.map_some']
    · intro hz; simp only [hz, if_true]
    · intro hz; simp [hz]

theorem HandleGet_variants_witness :
    stubGetRepo.GetByCode "PROD001" = .ok prod001 ∧
    ∃ pr, (catalog.HandleGet fixtureLib stubGetRepo "PROD001").response = .OK pr ∧
      pr.Variants.length = 1 := by
  obtain ⟨pr, h1, _, h3, _⟩ := HandleGet_variants fixtureLib stubGetRepo "PROD001" prod001 rfl
  exact ⟨rfl, pr, h1, h3⟩

/-! ## Theorems: the categories handler and repository -/

theorem TrimSpace_eq_empty_iff (s : String) : TrimSpace s = "" ↔ Blank s := by
  unfold TrimSpace Blank
  have hmk : ∀ l : List Char, String.mk l = "" ↔ l = [] := by
    intro l
    constructor
    · intro h; exact congrArg String.data h
    · intro h; rw [h]
  rw [hmk, List.reverse_eq_nil_iff, List.dropWhile_eq_nil_iff]
  constructor
  · intro h
    by_cases hnil : s.toList.dropWhile IsSpace = []
    · exact List.dropWhile_eq_nil_iff.mp hnil
    · exfalso
      have hhead := List.head_dropWhile_not IsSpace s.toList hnil
      have hmem : (s.toList.dropWhile IsSpace).head hnil ∈ (s.toList.dropWhile IsSpace).reverse :=
        List.mem_reverse.mpr (List.head_mem hnil)
      rw [h _ hmem] at hhead
      exact Bool.noConfusion hhead
  · intro h x hx
    have hnil : s.toList.dropWhile IsSpace = [] := List.dropWhile_eq_nil_iff.mpr h
    rw [hnil] at hx
    cases hx

/-- C7: for a decoded body `{code, name}`: when `code` is empty or white
space only, `HandleCreate` answers HTTP 400 "code is required", whatever
`name` is; otherwise, when `name` is empty or white space only, it answers
HTTP 400 "name is required"; in both cases it makes no call to the
repository. Code is checked first, so two blank fields give the code message. -/
theorem HandleCreate_validation (repo : categories.Repository)
    (req : categories.categoryResponse) :
    (Blank req.Code →
      categories.HandleCreate repo (some req) = ⟨.Error 400 "code is required", []⟩) ∧
    (¬ Blank req.Code → Blank req.Name →
      categories.HandleCreate repo (some req) = ⟨.Error 400 "name is required", []⟩) := by
  constructor
  · intro hc
    unfold categories.HandleCreate
    dsimp only
    rw [if_pos ((TrimSpace_eq_empty_iff _).mpr hc)]
  · intro hc hn
    unfold categories.HandleCreate
    dsimp only
    rw [if_neg (fun h => hc ((TrimSpace_eq_empty_iff _).mp h)),
      if_pos ((TrimSpace_eq_empty_iff _).mpr hn)]

/-- C8 (the code at the failing input): when the repository's `List` fails,
`HandleList` answers HTTP 500 with the message of the error; but when
`GetByCode` fails, `HandleGet` answers HTTP 404 "product not found" whatever
the error is, also for an error that is not `gorm.ErrRecordNotFound`, such as
a refused connection. -/
theorem HandleGet_error_is_404 :
    (∀ (F : Type) (lib : DecimalLib F) (repo : catalog.ProductRepository) (q : Values)
        (pf : Option Decimal) (e : GoError),
      catalog.parsePriceFilter lib (q.Get "priceLessThan") = .ok pf →
      repo.List (catalog.parseOffset (q.Get "offset")) (catalog.parseLimit (q.Get "limit"))
        (q.Get "category") pf = .error e →
      (catalog.HandleList lib repo q).response = .Error 500 e.Error) ∧
    (∀ (F : Type) (lib : DecimalLib F) (repo : catalog.ProductRepository) (code : String)
        (e : GoError), repo.GetByCode code = .error e →
      (catalog.HandleGet lib repo code).response = .Error 404 "product not found") ∧
    downRepo.GetByCode "PROD001" =
      .error (.plain "dial tcp 127.0.0.1:5432: connect: connection refused") ∧
    GoError.plain "dial tcp 127.0.0.1:5432: connect: connection refused" ≠ ErrRecordNotFound ∧
    (catalog.HandleGet fixtureLib downRepo "PROD001").response =
      .Error 404 "product not found" := by
  refine ⟨?_, ?_, rfl, by decide, rfl⟩
  · intro F lib repo q pf e hpf hlist
    unfold catalog.HandleList
    rw [hpf]
    dsimp only
    rw [hlist]
  · intro F lib repo code e h
    unfold catalog.HandleGet
    rw [h]

theorem asPgError_eq_some_iff (e pg : GoError) :
    models.asPgError e = some pg ↔
      pg ∈ e.chain ∧ ∃ severity message code, pg = .pgError severity message code := by
  induction e with
  | plain msg =>
    simp only [models.asPgError, GoError.chain, List.mem_singleton]
    constructor
    · intro h; cases h
    · rintro ⟨h, severity, message, code, h2⟩
      rw [h] at h2; cases h2
  | pgError severity message code =>
    simp only [models.asPgError, GoError.chain, List.mem_singleton, Option.some.injEq]
    constructor
    · intro h; exact ⟨h.symm, severity, message, code, h.symm⟩
    · intro h; exact h.1.symm
  | wrap msg inner ih =>
    simp only [models.asPgError, GoError.chain, List.mem_cons]
    rw [ih]
    constructor
    · rintro ⟨h1, h2⟩; exact ⟨Or.inr h1, h2⟩
    · rintro ⟨h1 | h1, severity, message, code, h2⟩
      · rw [h1] at h2; cases h2
      · exact ⟨h1, severity, message, code, h2⟩

theorem chain_pgError_unique (e : GoError) (s1 m1 c1 s2 m2 c2 : String)
    (h1 : GoError.pgError s1 m1 c1 ∈ e.chain) (h2 : GoError.pgError s2 m2 c2 ∈ e.chain) :
    GoError.pgError s1 m1 c1 = GoError.pgError s2 m2 c2 := by
  have a := (asPgError_eq_some_iff e _).mpr ⟨h1, s1, m1, c1, rfl⟩
  have b := (asPgError_eq_some_iff e _).mpr ⟨h2, s2, m2, c2, rfl⟩
  rw [a] at b
  exact Option.some.inj b

theorem isUniqueConstraintError_iff (e : GoError) :
    models.isUniqueConstraintError e = true ↔ IsUniqueViolation e := by
  unfold models.isUniqueConstraintError IsUniqueViolation
  constructor
  · intro h
    cases hA : models.asPgError e with
    | none => rw [hA] at h; cases h
    | some pg =>
      obtain ⟨hmem, severity, message, code, hpg⟩ := (asPgError_eq_some_iff e pg).mp hA
      subst hpg
      rw [hA] at h
      have hcode : code = "23505" := by simpa using h
      subst hcode
      exact ⟨_, hmem, severity, message, rfl⟩
  · rintro ⟨e1, hmem, severity, message, rfl⟩
    rw [(asPgError_eq_some_iff e _).mpr ⟨hmem, severity, message, "23505", rfl⟩]
    simp

/-- C9: whatever the insert does, `CategoriesRepository.Create` returns no
error when the insert succeeds, the error "category code already exists" when
the error of the insert is a uniqueness violation, and the error of the insert
itself in every other case. `isUniqueConstraintError` is true exactly for the
uniqueness violations (the error, or an error it wraps, is a PostgreSQL error
with code 23505): it is false for a PostgreSQL error with another code, such
as 23503, and for an error that is not a PostgreSQL error, and true for a
wrapped PostgreSQL error with code 23505. -/
theorem CategoriesRepository_Create_errors (db : models.DB) (c : models.Category) :
    ((db.Create c).2 = none → (models.CategoriesRepository.Create db c).2 = none) ∧
    (∀ e, (db.Create c).2 = some e → IsUniqueViolation e →
      (models.CategoriesRepository.Create db c).2 =
        some (.plain "category code already exists")) ∧
    (∀ e, (db.Create c).2 = some e → ¬ IsUniqueViolation e →
      (models.CategoriesRepository.Create db c).2 = some e) ∧
    (∀ e, models.isUniqueConstraintError e = true ↔ IsUniqueViolation e) ∧
    (∀ severity message code, code ≠ "23505" →
      models.isUniqueConstraintError (.pgError severity message code) = false) ∧
    (∀ severity message, models.isUniqueConstraintError (.pgError severity message "23503") = false) ∧
    (∀ msg, models.isUniqueConstraintError (.plain msg) = false) ∧
    (∀ msg severity message,
      models.isUniqueConstraintError (.wrap msg (.pgError severity message "23505")) = true) := by
  refine ⟨?_, ?_, ?_, isUniqueConstraintError_iff, ?_, ?_, ?_, ?_⟩
  · intro h
    unfold models.CategoriesRepository.Create
    rcases hdb : db.Create c with ⟨c1, _ | err⟩
    · rfl
    · rw [hdb] at h; cases h
  · intro e h hu
    unfold models.CategoriesRepository.Create
    rcases hdb : db.Create c with ⟨c1, _ | err⟩
    · rw [hdb] at h; cases h
    · rw [hdb] at h
      cases h
      dsimp only
      rw [if_pos ((isUniqueConstraintError_iff e).mpr hu)]
  · intro e h hu
    unfold models.CategoriesRepository.Create
    rcases hdb : db.Create c with ⟨c1, _ | err⟩
    · rw [hdb] at h; cases h
    · rw [hdb] at h
      cases h
      dsimp only
      rw [if_neg (fun hh => hu ((isUniqueConstraintError_iff e).mp hh))]
  · intro severity message code hne
    simp [models.isUniqueConstraintError, models.asPgError, hne]
  · intro severity message
    simp [models.isUniqueConstraintError, models.asPgError]
  · intro msg
    simp [models.isUniqueConstraintError, models.asPgError]
  · intro msg severity message
    simp [models.isUniqueConstraintError, models.asPgError]

/-- C10 (as amended): for a body whose code and name are both not blank,
`HandleCreate` calls the repository's `Create` once, with exactly the code and
name of the request (not trimmed); when `Create` fails, with whatever error,
the response is HTTP 500 with the message of the error; when `Create` succeeds
the response is HTTP 200 with the code and name of the category as `Create`
left it: the category is handed to `Create` by pointer and read back after the
call. -/
theorem HandleCreate_insert (repo : categories.Repository) (req : categories.categoryResponse)
    (hcode : ¬ Blank req.Code) (hname : ¬ Blank req.Name) :
    (categories.HandleCreate repo (some req)).calls = [.Create ⟨0, req.Code, req.Name⟩] ∧
    (∀ e, (repo.Create ⟨0, req.Code, req.Name⟩).2 = some e →
      (categories.HandleCreate repo (some req)).response = .Error 500 e.Error) ∧
    ((repo.Create ⟨0, req.Code, req.Name⟩).2 = none →
      (categories.HandleCreate repo (some req)).response.status = 200 ∧
      (categories.HandleCreate repo (some req)).response =
        .OK ⟨(repo.Create ⟨0, req.Code, req.Name⟩).1.Code,
          (repo.Create ⟨0, req.Code, req.Name⟩).1.Name⟩) := by
  unfold categories.HandleCreate
  dsimp only
  rw [if_neg (fun h => hcode ((TrimSpace_eq_empty_iff _).mp h)),
    if_neg (fun h => hname ((TrimSpace_eq_empty_iff _).mp h))]
  rcases repo.Create ⟨0, req.Code, req.Name⟩ with ⟨stored, _ | err⟩
  · dsimp only
    exact ⟨rfl, fun e he => (by cases he), fun _ => ⟨rfl, rfl⟩⟩
  · dsimp only
    refine ⟨rfl, fun e he => ?_, fun h => (by cases h)⟩
    cases he
    rfl

theorem HandleCreate_insert_witness :
    ¬ Blank " NEW" ∧ ¬ Blank "New Cat" ∧
    (categories.HandleCreate okCategories (some ⟨" NEW", "New Cat"⟩)).calls =
      [.Create ⟨0, " NEW", "New Cat"⟩] ∧
    (categories.HandleCreate okCategories (some ⟨" NEW", "New Cat"⟩)).response =
      .OK ⟨" NEW", "New Cat"⟩ := by
  have h := HandleCreate_insert okCategories ⟨" NEW", "New Cat"⟩ (by decide) (by decide)
  exact ⟨by decide, by decide, h.1, (h.2.2 rfl).2⟩

/-- C10 (counterexample to the claim as worded): for the body
`{"code":"NEW","name":"New Cat"}`, whose code and name are not blank, and a
repository whose `Create` succeeds and rewrites the category it is handed,
the response is HTTP 200 with the rewritten code and name, not with those of
the request. -/
theorem HandleCreate_echoes_rewritten :
    ¬ Blank "NEW" ∧ ¬ Blank "New Cat" ∧
    (rewritingRepo.Create ⟨0, "NEW", "New Cat"⟩).2 = none ∧
    (categories.HandleCreate rewritingRepo (some ⟨"NEW", "New Cat"⟩)).calls =
      [.Create ⟨0, "NEW", "New Cat"⟩] ∧
    (categories.HandleCreate rewritingRepo (some ⟨"NEW", "New Cat"⟩)).response =
      .OK ⟨"MUT", "Mutated"⟩ ∧
    (categories.HandleCreate rewritingRepo (some ⟨"NEW", "New Cat"⟩)).response ≠
      .OK ⟨"NEW", "New Cat"⟩ := by
  decide

/-! ## Theorems: the products repository -/

theorem filter_key_eq_find {α : Type} (key : α → Nat) (l : List α) (k : Nat)
    (h : (l.map key).Nodup) :
    (l.filter fun c => key c = k) = (l.find? fun c => key c = k).toList := by
  induction l with
  | nil => rfl
  | cons a l ih =>
    rw [List.map_cons, List.nodup_cons] at h
    by_cases hk : key a = k
    · have hnone : (l.filter fun c => key c = k) = [] := by
        rw [List.filter_eq_nil_iff]
        intro c hc hck
        apply h.1
        have : key c = key a := by rw [hk]; simpa using hck
        rw [← this]
        exact List.mem_map_of_mem key hc
      simp [List.filter_cons, List.find?_cons, hk, hnone]
    · simp [List.filter_cons, List.find?_cons, hk, ih h.2]

theorem rows_Model (st : models.Store) (conds : List models.Cond) :
    (models.Query.rows { models.Query.Model with conds := conds } st).map Prod.fst =
      st.products.filter fun p => conds.all fun c => c.holds (p, none) := by
  unfold models.Query.rows models.Query.source models.Query.Model
  simp only [Bool.false_eq_true, if_false]
  rw [List.filter_map, List.map_map]
  simp [Function.comp_def]

theorem rows_joined (st : models.Store) (hkey : st.categoryKey) (conds : List models.Cond) :
    (models.Query.rows { models.Query.Model with joinCategories := true, conds := conds }
      st).map Prod.fst =
      st.products.filter fun p =>
        (st.categoryOf p).any fun cat => conds.all fun c => c.holds (p, some cat) := by
  unfold models.Query.rows models.Query.source models.Query.Model models.Store.categoryOf
  simp only [if_true]
  induction st.products with
  | nil => rfl
  | cons p ps ih =>
    rw [List.flatMap_cons, List.filter_append, List.map_append, ih, List.filter_cons]
    rw [filter_key_eq_find (fun c : models.Category => c.ID) st.categories p.CategoryID hkey]
    cases hf : st.categories.find? (fun c => decide (c.ID = p.CategoryID)) with
    | none => simp
    | some cat =>
      by_cases hall : (conds.all fun c => c.holds (p, some cat)) = true
      · simp [hall]
      · simp [hall]

theorem applyFilters_cases (category : String) (priceLessThan : Option Decimal) :
    models.applyFilters category priceLessThan models.Query.Model =
      { models.Query.Model with
        joinCategories := decide (category ≠ "")
        conds := (if category ≠ "" then [models.Cond.categoryCodeEq category] else []) ++
          (match priceLessThan with
            | none => []
            | some d => [models.Cond.priceLt d]) } := by
  unfold models.applyFilters
  by_cases hc : category = "" <;> cases priceLessThan <;>
    simp [hc, models.Query.Where, models.Query.JoinsCategories, models.Query.Model]

theorem rows_applyFilters (st : models.Store) (hkey : st.categoryKey) (category : String)
    (priceLessThan : Option Decimal) :
    ((models.applyFilters category priceLessThan models.Query.Model).rows st).map Prod.fst =
      st.products.filter (matchesFilters st category priceLessThan) := by
  rw [applyFilters_cases]
  by_cases hc : category = ""
  · have hj : decide (category ≠ "") = false := by simp [hc]
    rw [hj, if_neg (not_not.mpr hc)]
    have h := rows_Model st ([] ++ match priceLessThan with
      | none => []
      | some d => [models.Cond.priceLt d])
    unfold models.Query.Model at h ⊢
    rw [h]
    apply List.filter_congr
    intro p _
    cases priceLessThan <;> simp [matchesFilters, hc, models.Cond.holds]
  · have hj : decide (category ≠ "") = true := by simp [hc]
    rw [hj, if_pos hc]
    have h := rows_joined st hkey ([models.Cond.categoryCodeEq category] ++
      match priceLessThan with
      | none => []
      | some d => [models.Cond.priceLt d])
    unfold models.Query.Model at h ⊢
    rw [h]
    apply List.filter_congr
    intro p _
    clear h
    cases hcat : st.categoryOf p <;> cases priceLessThan <;>
      simp [matchesFilters, hc, hcat, models.Cond.holds]

theorem finalQuery_eq (category : String) (priceLessThan : Option Decimal) (offset limit : Int) :
    (((((((((models.applyFilters category priceLessThan models.Query.Model).OrderByID.Preload
      "Variants").Preload "Category").Offset offset).Limit limit).Preload "Variants").Preload
      "Category").Offset offset).Limit limit) =
      { models.applyFilters category priceLessThan models.Query.Model with
        orderByID := true
        preloads := ["Variants", "Category"]
        offset := some offset
        limit := some limit } := by
  rw [applyFilters_cases]
  simp [models.Query.OrderByID, models.Query.Preload, models.Query.Offset, models.Query.Limit,
    models.Query.Model]

theorem rows_congr (q1 q2 : models.Query) (st : models.Store)
    (hj : q1.joinCategories = q2.joinCategories) (hc : q1.conds = q2.conds) :
    q1.rows st = q2.rows st := by
  unfold models.Query.rows models.Query.source
  rw [hj, hc]

theorem map_fst_sorted (rows : List models.QRow) :
    (rows.insertionSort fun a b => a.1.ID ≤ b.1.ID).map Prod.fst =
      (rows.map Prod.fst).insertionSort fun a b => a.ID ≤ b.ID :=
  List.map_insertionSort (fun a b : models.QRow => a.1.ID ≤ b.1.ID)
    (fun a b : models.ProductRow => a.ID ≤ b.ID) Prod.fst rows (fun _ _ _ _ => Iff.rfl)

theorem hydrate_eq_loaded (q : models.Query) (st : models.Store)
    (h : q.preloads = ["Variants", "Category"]) (p : models.ProductRow) :
    q.hydrate st p = st.loaded p := by
  unfold models.Query.hydrate models.Store.loaded models.Store.categoryOf
  rw [h]
  simp

/-- The products `List` returns and its total, in terms of the table. -/
theorem List_eq (st : models.Store) (hkey : st.categoryKey) (offset limit : Int)
    (category : String) (priceLessThan : Option Decimal) :
    models.ProductsRepository.List st offset limit category priceLessThan =
      .ok ((models.applyLimit (some limit) (models.applyOffset (some offset)
          ((st.products.filter (matchesFilters st category priceLessThan)).insertionSort
            fun a b => a.ID ≤ b.ID))).map st.loaded,
        ((st.products.filter (matchesFilters st category priceLessThan)).length : Int)) := by
  unfold models.ProductsRepository.List
  dsimp only
  rw [finalQuery_eq]
  have hcount : (models.applyFilters category priceLessThan models.Query.Model).Count st =
      .ok ((st.products.filter (matchesFilters st category priceLessThan)).length : Int) := by
    unfold models.Query.Count
    rw [← rows_applyFilters st hkey category priceLessThan, List.length_map]
  rw [hcount]
  unfold models.Query.Find
  dsimp only
  rw [if_pos rfl]
  congr 2
  have hrows : models.Query.rows
      { models.applyFilters category priceLessThan models.Query.Model with
        orderByID := true
        preloads := ["Variants", "Category"]
        offset := some offset
        limit := some limit } st =
      (models.applyFilters category priceLessThan models.Query.Model).rows st :=
    rows_congr _ _ st rfl rfl
  rw [hrows]
  have hmap : ∀ l : List models.QRow,
      (models.applyLimit (some limit) (models.applyOffset (some offset) l)).map Prod.fst =
        models.applyLimit (some limit) (models.applyOffset (some offset) (l.map Prod.fst)) := by
    intro l
    unfold models.applyLimit models.applyOffset
    dsimp only
    split_ifs <;> simp
  rw [hmap, map_fst_sorted, rows_applyFilters st hkey]
  apply List.map_congr_left
  intro p _
  exact hydrate_eq_loaded _ st rfl p

/-- C5: on a store whose categories have distinct keys, for every offset,
limit, category filter and price filter, `List` returns, and the total it
returns is the number of products that match the filters (category code equal
to the category filter when that is not empty, price strictly less than the
price filter when that is present); so two calls that differ in offset and
limit only return the same total. -/
theorem List_total (st : models.Store) (hkey : st.categoryKey) (offset limit : Int)
    (category : String) (priceLessThan : Option Decimal) :
    (∃ items, models.ProductsRepository.List st offset limit category priceLessThan =
      .ok (items, (st.products.countP (matchesFilters st category priceLessThan) : Int))) ∧
    ∀ (offset2 limit2 : Int) (items items2 : List models.Product) (total total2 : Int),
      models.ProductsRepository.List st offset limit category priceLessThan =
        .ok (items, total) →
      models.ProductsRepository.List st offset2 limit2 category priceLessThan =
        .ok (items2, total2) →
      total = total2 := by
  constructor
  · rw [List_eq st hkey, List.countP_eq_length_filter]
    exact ⟨_, rfl⟩
  · intro offset2 limit2 items items2 total total2 h1 h2
    rw [List_eq st hkey] at h1 h2
    injection h1 with h1
    injection h2 with h2
    rw [← (Prod.mk.inj h1).2, ← (Prod.mk.inj h2).2]

theorem List_total_witness :
    seed.categoryKey ∧
    ∃ items, models.ProductsRepository.List seed 1 1 "" none = .ok (items, 3) := by
  refine ⟨by decide, ?_⟩
  obtain ⟨items, h⟩ := (List_total seed (by decide) 1 1 "" none).1
  have hcount : (seed.products.countP (matchesFilters seed "" none) : Int) = 3 := by decide
  rw [hcount] at h
  exact ⟨items, h⟩

/-- C6 (as amended): on a store whose categories have distinct keys, the
products `List` returns are exactly the products that satisfy both filters
(category code equal to a category filter that is not empty, price strictly
less than a price filter that is present), in ascending order of product id,
without the first `offset` of them, each with its category and variants
loaded; for a limit that is not negative at most `limit` of them are kept,
and a negative limit cancels the limit, so that all of them are returned. On
the seed of the repository test: `List(0, 50, "ELEC", nil)` gives P-001 and
P-002, `List(0, 50, "", 50.00)` gives P-002 and P-003, and
`List(0, 50, "ELEC", 100.00)` gives P-002. -/
theorem List_page (st : models.Store) (hkey : st.categoryKey) (offset limit : Int)
    (category : String) (priceLessThan : Option Decimal) :
    (0 ≤ limit →
      (∃ total, models.ProductsRepository.List st offset limit category priceLessThan =
        .ok ((specPage st offset limit category priceLessThan).map st.loaded, total)) ∧
      ((specPage st offset limit category priceLessThan).length : Int) ≤ limit) ∧
    (limit < 0 →
      ∃ total, models.ProductsRepository.List st offset limit category priceLessThan =
        .ok ((specRest st offset category priceLessThan).map st.loaded, total)) ∧
    specPage st offset limit category priceLessThan =
      (specRest st offset category priceLessThan).take limit.toNat ∧
    (∀ p ∈ specRest st offset category priceLessThan,
      p ∈ st.products ∧ matchesFilters st category priceLessThan p = true) ∧
    codesAndTotal (models.ProductsRepository.List seed 0 50 "ELEC" none) =
      some (["P-001", "P-002"], 2) ∧
    codesAndTotal (models.ProductsRepository.List seed 0 50 "" (some ⟨50, 0⟩)) =
      some (["P-002", "P-003"], 2) ∧
    codesAndTotal (models.ProductsRepository.List seed 0 50 "ELEC" (some ⟨100, 0⟩)) =
      some (["P-002"], 1) := by
  have hoff : ∀ l : List models.ProductRow,
      models.applyOffset (some offset) l = l.drop offset.toNat := by
    intro l
    unfold models.applyOffset
    dsimp only
    by_cases ho : offset > 0
    · rw [if_pos ho]
    · rw [if_neg ho]
      have h0 : offset.toNat = 0 := by omega
      rw [h0, List.drop_zero]
  refine ⟨fun hlimit => ⟨?_, ?_⟩, fun hneg => ?_, rfl, ?_, by decide, by decide, by decide⟩
  · refine ⟨((st.products.filter (matchesFilters st category priceLessThan)).length : Int), ?_⟩
    rw [List_eq st hkey, hoff]
    unfold specPage models.applyLimit
    dsimp only
    rw [if_pos (ge_iff_le.mpr hlimit)]
  · unfold specPage
    have := List.length_take_le limit.toNat
      (((st.products.filter (matchesFilters st category priceLessThan)).insertionSort
        fun a b => a.ID ≤ b.ID).drop offset.toNat)
    omega
  · refine ⟨((st.products.filter (matchesFilters st category priceLessThan)).length : Int), ?_⟩
    rw [List_eq st hkey, hoff]
    unfold specRest models.applyLimit
    dsimp only
    rw [if_neg (not_le.mpr hneg)]
  · intro p hp
    unfold specRest at hp
    have h1 := List.mem_of_mem_drop hp
    rw [List.mem_insertionSort, List.mem_filter] at h1
    exact h1

theorem List_page_witness :
    seed.categoryKey ∧ (0 : Int) ≤ 1 ∧
    ∃ total, models.ProductsRepository.List seed 1 1 "" none =
      .ok ((specPage seed 1 1 "" none).map seed.loaded, total) :=
  ⟨by decide, by decide, ((List_page seed (by decide) 1 1 "" none).1 (by decide)).1⟩

/-- C6 (counterexample to the claim as worded): on the seed,
`List(1, -1, "", nil)` returns P-002 and P-003, two products, while "at most
`limit` kept" allows none for the limit -1: the page the claim words is
empty, and it is not what `List` returns. -/
theorem List_page_negative_limit :
    seed.categoryKey ∧
    codesAndTotal (models.ProductsRepository.List seed 1 (-1) "" none) =
      some (["P-002", "P-003"], 3) ∧
    specPage seed 1 (-1) "" none = [] ∧
    ¬ ∃ total, models.ProductsRepository.List seed 1 (-1) "" none =
      .ok ((specPage seed 1 (-1) "" none).map seed.loaded, total) := by
  have hcodes : codesAndTotal (models.ProductsRepository.List seed 1 (-1) "" none) =
      some (["P-002", "P-003"], 3) := by decide
  have hpage : specPage seed 1 (-1) "" none = [] := by decide
  refine ⟨by decide, hcodes, hpage, ?_⟩
  rintro ⟨total, h⟩
  rw [h, hpage] at hcodes
  simp [codesAndTotal] at hcodes

/-! ## Theorems: the list response -/

/-- C11: when the repository's `List` returns a list of products and a
total without error, the response of `HandleList` is HTTP 200, its total is
the repository's total, and its products are one item per product of the
repository's list, in the same order; the item at each position carries the
code of the product at that position, its price and its category's code and
name, and it has no variants (its `Variants` is empty, so its JSON has no
`variants` key), whatever variants the product has. -/
theorem HandleList_response {F : Type} (lib : DecimalLib F) (repo : catalog.ProductRepository)
    (q : Values) (pf : Option Decimal) (products : List models.Product) (total : Int)
    (hpf : catalog.parsePriceFilter lib (q.Get "priceLessThan") = .ok pf)
    (hlist : repo.List (catalog.parseOffset (q.Get "offset")) (catalog.parseLimit (q.Get "limit"))
      (q.Get "category") pf = .ok (products, total)) :
    ∃ resp : catalog.listResponse F,
      (catalog.HandleList lib repo q).response = .OK resp ∧
      (catalog.HandleList lib repo q).response.status = 200 ∧
      resp.Total = total ∧
      resp.Products.length = products.length ∧
      ∀ (i : Nat) (p : models.Product), products[i]? = some p →
        ∃ item : catalog.productResponse F, resp.Products[i]? = some item ∧
          item.Code = p.Code ∧
          item.Price = lib.InexactFloat64 p.Price ∧
          item.Category = ⟨p.Category.Code, p.Category.Name⟩ ∧
          item.Variants = [] ∧
          item.hasVariantsKey = false := by
  unfold catalog.HandleList
  rw [hpf]
  dsimp only
  rw [hlist]
  refine ⟨_, rfl, rfl, rfl, ?_, ?_⟩
  · simp
  · intro i p hp
    refine ⟨catalog.mapProduct lib p, ?_, rfl, rfl, rfl, rfl, rfl⟩
    simp only [List.getElem?_map, hp, Option.map_some']

theorem HandleList_response_witness :
    prod001.Variants ≠ [] ∧
    (catalog.HandleList fixtureLib stubListRepo emptyQuery).response =
      .OK { Products := [{ Code := "PROD001", Price := ⟨10, 0⟩,
                           Category := ⟨"CLOTHING", "Clothing"⟩, Variants := [] }],
            Total := 1 } := by
  obtain ⟨resp, h1, _, h3, h4, h5⟩ :=
    HandleList_response fixtureLib stubListRepo emptyQuery none [prod001] 1 rfl rfl
  obtain ⟨item, hi, hc, hp, hcat, hv, _⟩ := h5 0 prod001 rfl
  refine ⟨by decide, ?_⟩
  rw [h1]
  rcases resp with ⟨ps, t⟩
  dsimp only at h3 h4 hi
  subst h3
  match ps, h4, hi with
  | [x], _, hi =>
    simp only [List.getElem?_cons_zero, Option.some.injEq] at hi
    subst hi
    rcases x with ⟨code, price, cat, vs⟩
    dsimp only at hc hp hcat hv
    subst hc hp hcat hv
    rfl

end GoHiringChallenge
